import Mathlib

/-
Verification of the PowerBalancerAgent step state machine
(src/src/PowerBalancerAgent.cpp).

The four-field policy and sample vectors of the agent are embedded as
structures over an IEEE-double model `D := Option ℚ` in which `none`
plays the role of NaN and `some q` a finite value.  The comparison and
arithmetic helpers below follow IEEE semantics for the operations the
source uses: any comparison with NaN is false (hence `!=` with NaN is
true), and arithmetic propagates NaN.
-/

abbrev D : Type := Option ℚ

/-- IEEE equality: false whenever either side is NaN. -/
def dEq : D → D → Bool
  | some a, some b => decide (a = b)
  | _, _ => false

/-- IEEE inequality, the negation of `dEq` (true when either side is NaN). -/
def dNe (a b : D) : Bool := !(dEq a b)

/-- IEEE less-than: false whenever either side is NaN. -/
def dLt : D → D → Bool
  | some a, some b => decide (a < b)
  | _, _ => false

/-- IEEE addition, propagating NaN. -/
def dAdd : D → D → D
  | some a, some b => some (a + b)
  | _, _ => none

/-- Division, propagating NaN.  The source only divides by positive
integer counts, so the rational division model is adequate. -/
def dDiv : D → D → D
  | some a, some b => some (a / b)
  | _, _ => none

/-- std::isnan. -/
def isnan (a : D) : Bool := a.isNone

deriving instance DecidableEq for Except

/-- Error kinds raised by the agent (Exception calls in the source). -/
inductive Err : Type
  | wrong_role
  | desync
  | invalid_budget
  | invalid_policy
deriving DecidableEq, Repr

/-- The policy vector (M_POLICY_* order from the source:
POWER_PACKAGE_LIMIT_TOTAL, STEP_COUNT, MAX_EPOCH_RUNTIME, POWER_SLACK). -/
structure Policy : Type where
  power_cap : D
  step_count : D
  max_epoch_runtime : D
  power_slack : D
deriving DecidableEq, Repr

/-- The sample vector (M_SAMPLE_* order from the source:
STEP_COUNT, MAX_EPOCH_RUNTIME, SUM_POWER_SLACK, MIN_POWER_HEADROOM). -/
structure Sample : Type where
  step_count : D
  max_epoch_runtime : D
  sum_power_slack : D
  min_power_headroom : D
deriving DecidableEq, Repr

def M_NUM_STEP : ℤ := 3
def M_STEP_SEND_DOWN_LIMIT : ℤ := 0
def M_STEP_MEASURE_RUNTIME : ℤ := 1
def M_STEP_REDUCE_LIMIT : ℤ := 2

/-- PowerBalancerAgent::Role::step(size_t): step_count % M_NUM_STEP.
C++ % truncates toward zero, hence Int.tmod. -/
def Role.step (step_count : ℤ) : ℤ := Int.tmod step_count M_NUM_STEP

/-- Modelled from the spec: Agg::min (the Agg library is not under src/);
minimum of a vector of doubles, folded with the IEEE less-than. -/
def aggMin : List D → D
  | [] => none
  | x :: xs => xs.foldl (fun a b => if dLt b a then b else a) x

/-- Modelled from the spec: Agg::max (the Agg library is not under src/). -/
def aggMax : List D → D
  | [] => none
  | x :: xs => xs.foldl (fun a b => if dLt a b then b else a) x

/-- Modelled from the spec: Agg::sum (the Agg library is not under src/). -/
def aggSum (l : List D) : D := l.foldl dAdd (some 0)

/-- Modelled from the spec: Agent::aggregate_sample (Agent.cpp is not under
src/) applies the i-th aggregation function to the i-th field across all
child samples; the per-field functions are the M_AGG_FUNC vector of
PowerBalancerAgent::TreeRole::TreeRole: min, max, sum, min. -/
def aggregate_sample (children : List Sample) : Sample where
  step_count := aggMin (children.map Sample.step_count)
  max_epoch_runtime := aggMax (children.map Sample.max_epoch_runtime)
  sum_power_slack := aggSum (children.map Sample.sum_power_slack)
  min_power_headroom := aggMin (children.map Sample.min_power_headroom)

/-- State shared by TreeRole and RootRole: m_policy, m_step_count and
m_is_step_complete of PowerBalancerAgent::Role. -/
structure TreeState : Type where
  policy : Policy
  step_count : ℤ
  is_step_complete : Bool
deriving DecidableEq, Repr

/-- Fresh TreeRole: Role() sets m_policy to NAN and m_step_count to -1;
TreeRole::TreeRole then sets m_is_step_complete = true. -/
def TreeRole.init : TreeState where
  policy := ⟨none, none, none, none⟩
  step_count := -1
  is_step_complete := true

/-- PowerBalancerAgent::TreeRole::ascend.  The returned Bool is the C++
return value (step newly completed by all children). -/
def TreeRole.ascend (s : TreeState) (children : List Sample) :
    Except Err (TreeState × Sample × Bool) :=
  let out := aggregate_sample children
  if !s.is_step_complete && dEq out.step_count (some ((s.step_count : ℚ))) then
    if !(dEq out.step_count (some ((s.step_count : ℚ)))) then
      Except.error Err.desync
    else
      Except.ok ({ s with is_step_complete := true }, out, true)
  else
    Except.ok (s, out, false)

/-- PowerBalancerAgent::TreeRole::descend.  `out` holds the previous
contents of the caller-owned out_policy slots; they are overwritten only
when a new policy is produced. -/
def TreeRole.descend (s : TreeState) (inp : Policy) (out : List Policy) :
    Except Err (TreeState × List Policy × Bool) :=
  if s.is_step_complete && dNe inp.step_count (some ((s.step_count : ℚ))) then
    if dEq inp.step_count (some ((M_STEP_SEND_DOWN_LIMIT : ℚ))) then
      Except.ok ({ policy := inp, step_count := M_STEP_SEND_DOWN_LIMIT,
                   is_step_complete := false },
                 out.map (fun _ => inp), true)
    else if dEq inp.step_count (some ((s.step_count : ℚ) + 1)) then
      Except.ok ({ policy := inp, step_count := s.step_count + 1,
                   is_step_complete := false },
                 out.map (fun _ => inp), true)
    else
      Except.error Err.desync
  else
    Except.ok (s, out, false)

/-- calc_num_node: the product of the fan_in vector. -/
def calc_num_node (fan_in : List ℤ) : ℤ := fan_in.foldl (· * ·) 1

/-- State of the RootRole: the inherited TreeRole state plus M_NUM_NODE,
m_root_cap and the power-setting bounds read at construction. -/
structure RootState : Type where
  tree : TreeState
  num_node : ℤ
  root_cap : D
  min_setting : D
  max_setting : D
deriving DecidableEq, Repr

/-- Fresh RootRole: TreeRole construction followed by
m_step_count = M_STEP_SEND_DOWN_LIMIT and m_is_step_complete = false;
m_root_cap starts as NAN. -/
def RootRole.init (fan_in : List ℤ) (minp maxp : D) : RootState where
  tree := { policy := ⟨none, none, none, none⟩,
            step_count := M_STEP_SEND_DOWN_LIMIT,
            is_step_complete := false }
  num_node := calc_num_node fan_in
  root_cap := none
  min_setting := minp
  max_setting := maxp

/-- PowerBalancerAgent::SendDownLimitStep::update_policy. -/
def SendDownLimitStep.update_policy (p : Policy) (_sample : Sample)
    (_num_node : ℤ) : Policy :=
  { p with power_cap := some 0 }

/-- PowerBalancerAgent::MeasureRuntimeStep::update_policy. -/
def MeasureRuntimeStep.update_policy (p : Policy) (sample : Sample)
    (_num_node : ℤ) : Policy :=
  { p with max_epoch_runtime := sample.max_epoch_runtime }

/-- PowerBalancerAgent::ReduceLimitStep::update_policy:
power_slack := slack < head ? slack : head with
slack = sum_power_slack / M_NUM_NODE and head = min_power_headroom. -/
def ReduceLimitStep.update_policy (p : Policy) (sample : Sample)
    (num_node : ℤ) : Policy :=
  let slack := dDiv sample.sum_power_slack (some ((num_node : ℚ)))
  let head := sample.min_power_headroom
  { p with power_slack := if dLt slack head then slack else head }

/-- Dispatch of step_imp().update_policy on the current step index. -/
def Role.step_update_policy (k : ℤ) (p : Policy) (sample : Sample)
    (num_node : ℤ) : Policy :=
  if k = M_STEP_SEND_DOWN_LIMIT then
    SendDownLimitStep.update_policy p sample num_node
  else if k = M_STEP_MEASURE_RUNTIME then
    MeasureRuntimeStep.update_policy p sample num_node
  else
    ReduceLimitStep.update_policy p sample num_node

/-- PowerBalancerAgent::RootRole::ascend. -/
def RootRole.ascend (s : RootState) (children : List Sample) :
    Except Err (RootState × Sample × Bool) :=
  match TreeRole.ascend s.tree children with
  | Except.error e => Except.error e
  | Except.ok (t, out, result) =>
    if result then
      if dNe (some ((t.step_count : ℚ))) t.policy.step_count then
        Except.error Err.desync
      else
        let p1 := Role.step_update_policy (Role.step t.step_count)
                    t.policy out s.num_node
        let p2 := { p1 with step_count := some ((t.step_count : ℚ) + 1) }
        Except.ok ({ s with tree := { t with policy := p2 } }, out, true)
    else
      Except.ok ({ s with tree := t }, out, false)

/-- PowerBalancerAgent::RootRole::descend.  Note that apart from the
power-cap comparison the branch conditions read the *stored* policy
m_policy, not the incoming one. -/
def RootRole.descend (s : RootState) (inp : Policy) (out : List Policy) :
    Except Err (RootState × List Policy × Bool) :=
  if dNe inp.power_cap s.root_cap then
    let p : Policy := { power_cap := inp.power_cap,
                        step_count := some ((M_STEP_SEND_DOWN_LIMIT : ℚ)),
                        max_epoch_runtime := some 0,
                        power_slack := some 0 }
    if dLt s.max_setting inp.power_cap || dLt inp.power_cap s.min_setting then
      Except.error Err.invalid_budget
    else
      Except.ok ({ s with
                     tree := { policy := p,
                               step_count := M_STEP_SEND_DOWN_LIMIT,
                               is_step_complete := s.tree.is_step_complete },
                     root_cap := inp.power_cap },
                 out.map (fun _ => p), true)
  else if dEq (some ((s.tree.step_count : ℚ) + 1)) s.tree.policy.step_count then
    Except.ok ({ s with
                   tree := { s.tree with
                               step_count := s.tree.step_count + 1,
                               is_step_complete := false } },
               out.map (fun _ => s.tree.policy), true)
  else if dNe (some ((s.tree.step_count : ℚ))) s.tree.policy.step_count then
    Except.error Err.desync
  else
    Except.ok (s, out, false)

/-- PowerBalancerAgent::Role::descend: throws a logic error when compiled
with GEOPM_DEBUG, silently returns false otherwise. -/
def Role.base_descend (debug : Bool) : Except Err Bool :=
  if debug then Except.error Err.wrong_role else Except.ok false

/-- PowerBalancerAgent::Role::ascend: throws a logic error when compiled
with GEOPM_DEBUG, silently returns false otherwise. -/
def Role.base_ascend (debug : Bool) : Except Err Bool :=
  if debug then Except.error Err.wrong_role else Except.ok false

/-- The operations the leaf role invokes on a per-package PowerBalancer.
The PowerBalancer implementation is not part of this development, so the
balancer state is an abstract type B equipped with these operations. -/
structure BalancerOps (B : Type) : Type where
  power_cap_set : B → D → B
  power_limit : B → D
  power_limit_adjusted : B → D → B
  target_runtime_set : B → D → B

/-- One entry of LeafRole::m_package (m_package_s); the initializer in the
source is {0, 0.0, NAN, 0.0, 0.0, false}. -/
structure PackageState : Type where
  last_epoch_count : ℤ
  runtime : D
  actual_limit : D
  power_slack : D
  power_headroom : D
  is_out_of_bounds : Bool
deriving DecidableEq, Repr

/-- State of the LeafRole: Role bookkeeping plus the per-package balancer
and m_package vectors (each of size m_num_domain). -/
structure LeafState (B : Type) : Type where
  policy : Policy
  step_count : ℤ
  is_step_complete : Bool
  num_domain : ℕ
  balancers : List B
  packages : List PackageState
deriving DecidableEq, Repr

/-- Fresh LeafRole: Role() sets m_policy to NAN and m_step_count = -1; the
LeafRole constructor fills m_package with {0, 0.0, NAN, 0.0, 0.0, false}
per package and ends with m_is_step_complete = true. -/
def LeafRole.init {B : Type} (balancers : List B) (num_domain : ℕ) :
    LeafState B where
  policy := ⟨none, none, none, none⟩
  step_count := -1
  is_step_complete := true
  num_domain := num_domain
  balancers := balancers
  packages := List.replicate num_domain ⟨0, some 0, none, some 0, some 0, false⟩

/-- Events recording the calls the leaf role makes into its balancers. -/
inductive LeafEvent : Type
  | cap_set
  | target_set
  | limit_adjusted
deriving DecidableEq, Repr

/-- PowerBalancerAgent::SendDownLimitStep::enter_step:
balancer->power_cap(balancer->power_limit() + slack) for each package with
slack = policy.power_slack / m_num_domain, then mark the step complete. -/
def SendDownLimitStep.enter_step {B : Type} (ops : BalancerOps B)
    (s : LeafState B) (inp : Policy) : LeafState B :=
  let slack := dDiv inp.power_slack (some ((s.num_domain : ℚ)))
  { s with
      balancers := s.balancers.map
        (fun b => ops.power_cap_set b (dAdd (ops.power_limit b) slack)),
      is_step_complete := true }

/-- PowerBalancerAgent::ReduceLimitStep::enter_step:
balancer->target_runtime(policy.max_epoch_runtime) for each package. -/
def ReduceLimitStep.enter_step {B : Type} (ops : BalancerOps B)
    (s : LeafState B) (inp : Policy) : LeafState B :=
  { s with
      balancers := s.balancers.map
        (fun b => ops.target_runtime_set b inp.max_epoch_runtime) }

/-- Dispatch of step_imp().enter_step on the current step index
(MeasureRuntimeStep::enter_step is a no-op). -/
def Role.enter_step {B : Type} (ops : BalancerOps B) (s : LeafState B)
    (inp : Policy) : LeafState B × List LeafEvent :=
  if Role.step s.step_count = M_STEP_SEND_DOWN_LIMIT then
    (SendDownLimitStep.enter_step ops s inp,
     s.balancers.map (fun _ => LeafEvent.cap_set))
  else if Role.step s.step_count = M_STEP_MEASURE_RUNTIME then
    (s, [])
  else
    (ReduceLimitStep.enter_step ops s inp,
     s.balancers.map (fun _ => LeafEvent.target_set))

/-- The per-package loop at the end of LeafRole::adjust_platform (lines
199-215): read the requested power limit, mark the package out-of-bounds
when the request is below the actual limit, and (only if `result` is
already true, which never happens) report the adjusted limit back. -/
def adjust_loop {B : Type} (ops : BalancerOps B) :
    Bool → List (B × PackageState) →
    Bool × List (B × PackageState) × List LeafEvent
  | result, [] => (result, [], [])
  | result, (b, pkg) :: rest =>
    let request := ops.power_limit b
    let pkg2 := if dLt request pkg.actual_limit then
                  { pkg with is_out_of_bounds := true }
                else pkg
    let step : B × List LeafEvent :=
      if result then (ops.power_limit_adjusted b pkg2.actual_limit,
                      [LeafEvent.limit_adjusted])
      else (b, [])
    let rec2 := adjust_loop ops result rest
    (rec2.1, (step.1, pkg2) :: rec2.2.1, step.2 ++ rec2.2.2)

/-- Lines 177-197 of LeafRole::adjust_platform: store the policy, then
either reset on a nonzero power cap, advance a step (entering it), fail
out of sync, or do nothing. -/
def LeafRole.adjust_pre {B : Type} (ops : BalancerOps B)
    (s0 : LeafState B) (inp : Policy) :
    Except Err (LeafState B × List LeafEvent) :=
  if dNe inp.power_cap (some 0) then
    Except.ok ({ s0 with
                   policy := inp,
                   step_count := M_STEP_SEND_DOWN_LIMIT,
                   balancers := s0.balancers.map
                     (fun b => ops.power_cap_set b
                       (dDiv inp.power_cap (some ((s0.num_domain : ℚ))))),
                   is_step_complete := true },
               s0.balancers.map (fun _ => LeafEvent.cap_set))
  else if dNe inp.step_count (some ((s0.step_count : ℚ))) then
    if dNe (some (((s0.step_count + 1 : ℤ) : ℚ))) inp.step_count then
      Except.error Err.desync
    else
      Except.ok (Role.enter_step ops
        { s0 with policy := inp, step_count := s0.step_count + 1,
                  is_step_complete := false } inp)
  else
    Except.ok ({ s0 with policy := inp }, [])

/-- PowerBalancerAgent::LeafRole::adjust_platform: the branching part
above followed by the per-package loop. -/
def LeafRole.adjust_platform {B : Type} (ops : BalancerOps B)
    (s0 : LeafState B) (inp : Policy) :
    Except Err (Bool × LeafState B × List LeafEvent) :=
  match LeafRole.adjust_pre ops s0 inp with
  | Except.error e => Except.error e
  | Except.ok (s1, ev1) =>
    let lp := adjust_loop ops false (s1.balancers.zip s1.packages)
    Except.ok (lp.1,
               { s1 with balancers := lp.2.1.map Prod.fst,
                         packages := lp.2.1.map Prod.snd },
               ev1 ++ lp.2.2)

/-- Lines 227-240 of LeafRole::sample_platform: fill the out sample from
the role state (the step hook has already run).  The single C++ loop over
packages is split into three independent folds. -/
def LeafRole.sample_fill {B : Type} (s : LeafState B) : Sample × Bool :=
  ({ step_count := some ((s.step_count : ℚ)),
     max_epoch_runtime := s.packages.foldl
       (fun r pkg => if dLt pkg.runtime r then r else pkg.runtime) (some 0),
     sum_power_slack := s.packages.foldl
       (fun a pkg => dAdd a pkg.power_slack) (some 0),
     min_power_headroom := s.packages.foldl
       (fun a pkg => dAdd a pkg.power_headroom) (some 0) },
   s.is_step_complete)

/-- PowerBalancerAgent::SendDownLimitStep::sample_platform is a no-op. -/
def SendDownLimitStep.sample_hook {B : Type} : LeafState B → LeafState B :=
  fun s => s

/-- PowerBalancerAgent::LeafRole::sample_platform: run the current step
sample hook (a state transformer; MeasureRuntimeStep and ReduceLimitStep
read platform signals, so the hook is kept abstract), then fill the out
sample. -/
def LeafRole.sample_platform {B : Type}
    (hook : LeafState B → LeafState B) (s : LeafState B) : Sample × Bool :=
  LeafRole.sample_fill (hook s)

/-- The do_send_* / do_write_batch flags of the PowerBalancerAgent facade. -/
structure AgentFlags : Type where
  do_send_sample : Bool
  do_send_policy : Bool
  do_write_batch : Bool
deriving DecidableEq, Repr

/-- PowerBalancerAgent::adjust_platform: m_do_write_batch is set to the
return value of the role's adjust_platform. -/
def PowerBalancerAgent.adjust_platform {B : Type} (ops : BalancerOps B)
    (a : AgentFlags) (s : LeafState B) (inp : Policy) :
    Except Err (AgentFlags × LeafState B × List LeafEvent) :=
  match LeafRole.adjust_platform ops s inp with
  | Except.error e => Except.error e
  | Except.ok (res, s2, ev) =>
    Except.ok ({ a with do_write_batch := res }, s2, ev)

/-- PowerBalancerAgent::validate_policy, with the POWER_PACKAGE_TDP,
POWER_PACKAGE_MIN and POWER_PACKAGE_MAX board-level platform readings
passed as parameters. -/
def PowerBalancerAgent.validate_policy (power_tdp minp maxp : D)
    (p0 : Policy) : Except Err Policy :=
  let p1 := { p0 with power_cap :=
                if isnan p0.power_cap then power_tdp else p0.power_cap }
  let p2 := { p1 with step_count :=
                if isnan p1.step_count then some 0 else p1.step_count }
  let p3 := { p2 with max_epoch_runtime :=
                if isnan p2.max_epoch_runtime then some 0
                else p2.max_epoch_runtime }
  let p4 := { p3 with power_slack :=
                if isnan p3.power_slack then some 0 else p3.power_slack }
  let p5 :=
    if dNe p4.power_cap (some 0) then
      { p4 with power_cap :=
          if dLt p4.power_cap minp then minp
          else if dLt maxp p4.power_cap then maxp
          else p4.power_cap }
    else p4
  if dEq p5.power_cap (some 0) && dEq p5.step_count (some 0) &&
     dEq p5.max_epoch_runtime (some 0) && dEq p5.power_slack (some 0) then
    Except.error Err.invalid_policy
  else
    Except.ok p5

/-- Modelled from the spec: the cap and enforced limit of a per-package
PowerBalancer (PowerBalancer.cpp is not under src/).  power_cap(c) resets
the limit to c; power_limit_adjusted records the actual limit. -/
structure PB : Type where
  cap : D
  limit : D
deriving DecidableEq, Repr

/-- Modelled from the spec: the BalancerOps of the concrete PB model. -/
def PB.ops : BalancerOps PB where
  power_cap_set := fun _ c => { cap := c, limit := c }
  power_limit := fun b => b.limit
  power_limit_adjusted := fun b a => { b with limit := a }
  target_runtime_set := fun b _ => b

/-- A trivial balancer used where the balancer state is irrelevant. -/
def opsUnit : BalancerOps Unit where
  power_cap_set := fun _ _ => ()
  power_limit := fun _ => some 0
  power_limit_adjusted := fun _ _ => ()
  target_runtime_set := fun _ _ => ()

@[simp] lemma dEq_some_some (a b : ℚ) : dEq (some a) (some b) = decide (a = b) := rfl

@[simp] lemma dEq_none_left (b : D) : dEq none b = false := by cases b <;> rfl

@[simp] lemma dEq_none_right (a : D) : dEq a none = false := by cases a <;> rfl

@[simp] lemma dNe_some_some (a b : ℚ) : dNe (some a) (some b) = !decide (a = b) := rfl

@[simp] lemma dNe_none_left (b : D) : dNe none b = true := by cases b <;> rfl

@[simp] lemma dNe_none_right (a : D) : dNe a none = true := by cases a <;> rfl

@[simp] lemma dLt_some_some (a b : ℚ) : dLt (some a) (some b) = decide (a < b) := rfl

@[simp] lemma dLt_none_left (b : D) : dLt none b = false := by cases b <;> rfl

@[simp] lemma dLt_none_right (a : D) : dLt a none = false := by cases a <;> rfl

@[simp] lemma dAdd_some_some (a b : ℚ) : dAdd (some a) (some b) = some (a + b) := rfl

@[simp] lemma dDiv_some_some (a b : ℚ) : dDiv (some a) (some b) = some (a / b) := rfl

@[simp] lemma isnan_some (a : ℚ) : isnan (some a) = false := rfl

@[simp] lemma isnan_none : isnan none = true := rfl

/-- Folding the IEEE minimum over finite values computes the rational
minimum. -/
lemma foldl_dmin_map_some (a : ℚ) (l : List ℚ) :
    (l.map some).foldl (fun x y => if dLt y x then y else x) (some a) =
      some (l.foldl min a) := by
  induction l generalizing a with
  | nil => rfl
  | cons q qs ih =>
    simp only [List.map_cons, List.foldl_cons, dLt_some_some]
    rw [show (if decide (q < a) = true then some q else some a) =
          some (min a q) by
        by_cases h : q < a
        · simp [h, min_eq_right h.le]
        · simp [h, min_eq_left (le_of_not_lt h)]]
    exact ih (min a q)

/-- Folding the IEEE maximum over finite values computes the rational
maximum. -/
lemma foldl_dmax_map_some (a : ℚ) (l : List ℚ) :
    (l.map some).foldl (fun x y => if dLt x y then y else x) (some a) =
      some (l.foldl max a) := by
  induction l generalizing a with
  | nil => rfl
  | cons q qs ih =>
    simp only [List.map_cons, List.foldl_cons, dLt_some_some]
    rw [show (if decide (a < q) = true then some q else some a) =
          some (max a q) by
        by_cases h : a < q
        · simp [h, max_eq_right h.le]
        · simp [h, max_eq_left (le_of_not_lt h)]]
    exact ih (max a q)

/-- Folding the IEEE addition over finite values computes the rational
sum. -/
lemma foldl_dAdd_map_some (a : ℚ) (l : List ℚ) :
    (l.map some).foldl dAdd (some a) = some (l.foldl (· + ·) a) := by
  induction l generalizing a with
  | nil => rfl
  | cons q qs ih =>
    simp only [List.map_cons, List.foldl_cons, dAdd_some_some]
    exact ih (a + q)

lemma aggMin_map_some (q : ℚ) (qs : List ℚ) :
    aggMin ((q :: qs).map some) = some (qs.foldl min q) := by
  simp only [List.map_cons, aggMin]
  exact foldl_dmin_map_some q qs

lemma aggMax_map_some (q : ℚ) (qs : List ℚ) :
    aggMax ((q :: qs).map some) = some (qs.foldl max q) := by
  simp only [List.map_cons, aggMax]
  exact foldl_dmax_map_some q qs

lemma aggSum_map_some (qs : List ℚ) :
    aggSum (qs.map some) = some (qs.foldl (· + ·) 0) := by
  simpa only [aggSum] using foldl_dAdd_map_some 0 qs

/-- Structure of TreeRole::ascend: the inner desync check is unreachable,
so ascend always succeeds, returns the aggregated sample, and reports
completion exactly when the step was incomplete and the aggregated
step count matches. -/
lemma tree_ascend_eq (s : TreeState) (children : List Sample) :
    TreeRole.ascend s children =
      Except.ok
        ((if (!s.is_step_complete &&
              dEq (aggregate_sample children).step_count
                (some ((s.step_count : ℚ)))) = true then
            { s with is_step_complete := true } else s),
         aggregate_sample children,
         (!s.is_step_complete &&
          dEq (aggregate_sample children).step_count
            (some ((s.step_count : ℚ))))) := by
  by_cases h : (!s.is_step_complete &&
      dEq (aggregate_sample children).step_count
        (some ((s.step_count : ℚ)))) = true
  · have h2 : dEq (aggregate_sample children).step_count
        (some ((s.step_count : ℚ))) = true := (Bool.and_eq_true _ _ ▸ h).2
    have h1 : s.is_step_complete = false := by
      have := (Bool.and_eq_true _ _ ▸ h).1
      simpa using this
    simp [TreeRole.ascend, h, h1, h2]
  · have hb : (!s.is_step_complete &&
        dEq (aggregate_sample children).step_count
          (some ((s.step_count : ℚ)))) = false := by
      revert h
      cases (!s.is_step_complete &&
        dEq (aggregate_sample children).step_count
          (some ((s.step_count : ℚ)))) <;> simp
    simp [TreeRole.ascend, hb]

@[simp] lemma dEq_some_right_iff (x : D) (q : ℚ) :
    dEq x (some q) = true ↔ x = some q := by
  cases x <;> simp

/-- A numeric sample built from a quadruple of rationals. -/
def toSample (c : ℚ × ℚ × ℚ × ℚ) : Sample :=
  ⟨some c.1, some c.2.1, some c.2.2.1, some c.2.2.2⟩

/-- Aggregation of a non-empty list of numeric samples computes rational
min / max / sum / min field by field. -/
lemma aggregate_toSample (c : ℚ × ℚ × ℚ × ℚ) (cs : List (ℚ × ℚ × ℚ × ℚ)) :
    aggregate_sample ((c :: cs).map toSample) =
      ⟨some ((cs.map (fun x => x.1)).foldl min c.1),
       some ((cs.map (fun x => x.2.1)).foldl max c.2.1),
       some ((c.2.2.1 :: cs.map (fun x => x.2.2.1)).foldl (· + ·) 0),
       some ((cs.map (fun x => x.2.2.2)).foldl min c.2.2.2)⟩ := by
  have h1 : ((c :: cs).map toSample).map Sample.step_count =
      (c.1 :: cs.map (fun x => x.1)).map some := by
    simp [toSample, List.map_map, Function.comp]
  have h2 : ((c :: cs).map toSample).map Sample.max_epoch_runtime =
      (c.2.1 :: cs.map (fun x => x.2.1)).map some := by
    simp [toSample, List.map_map, Function.comp]
  have h3 : ((c :: cs).map toSample).map Sample.sum_power_slack =
      (c.2.2.1 :: cs.map (fun x => x.2.2.1)).map some := by
    simp [toSample, List.map_map, Function.comp]
  have h4 : ((c :: cs).map toSample).map Sample.min_power_headroom =
      (c.2.2.2 :: cs.map (fun x => x.2.2.2)).map some := by
    simp [toSample, List.map_map, Function.comp]
  simp only [aggregate_sample, h1, h2, h3, h4,
    aggMin_map_some, aggMax_map_some, aggSum_map_some]

/-- C2: for every tree-role (intermediate or root) agent, ascend
aggregates the four sample fields by min, max, sum and min respectively,
and returns true exactly when the step was previously incomplete and the
aggregated (minimum) step_count equals the role's own step_count. -/
theorem c2_tree_ascend_aggregates :
    (∀ (s : TreeState) (c : ℚ × ℚ × ℚ × ℚ) (cs : List (ℚ × ℚ × ℚ × ℚ)),
      TreeRole.ascend s ((c :: cs).map toSample) =
        Except.ok
          ((if (!s.is_step_complete &&
                decide ((cs.map (fun x => x.1)).foldl min c.1 =
                  ((s.step_count : ℚ)))) = true then
              { s with is_step_complete := true } else s),
           ⟨some ((cs.map (fun x => x.1)).foldl min c.1),
            some ((cs.map (fun x => x.2.1)).foldl max c.2.1),
            some ((c.2.2.1 :: cs.map (fun x => x.2.2.1)).foldl (· + ·) 0),
            some ((cs.map (fun x => x.2.2.2)).foldl min c.2.2.2)⟩,
           (!s.is_step_complete &&
            decide ((cs.map (fun x => x.1)).foldl min c.1 =
              ((s.step_count : ℚ)))))) ∧
    (∀ (rs : RootState) (children : List Sample) (t : RootState)
       (out : Sample) (r : Bool),
      RootRole.ascend rs children = Except.ok (t, out, r) →
      out = aggregate_sample children ∧
      (r = true ↔ (rs.tree.is_step_complete = false ∧
        (aggregate_sample children).step_count =
          some ((rs.tree.step_count : ℚ))))) := by
  constructor
  · intro s c cs
    rw [tree_ascend_eq, aggregate_toSample]
    simp only [dEq_some_some]
  · intro rs children t out r h
    rw [RootRole.ascend, tree_ascend_eq] at h
    simp only [] at h
    by_cases hc : (!rs.tree.is_step_complete &&
        dEq (aggregate_sample children).step_count
          (some ((rs.tree.step_count : ℚ)))) = true
    · have h1 : rs.tree.is_step_complete = false := by
        have := (Bool.and_eq_true _ _ ▸ hc).1
        simpa using this
      have h2 : (aggregate_sample children).step_count =
          some ((rs.tree.step_count : ℚ)) := by
        have := (Bool.and_eq_true _ _ ▸ hc).2
        simpa using this
      simp only [hc, if_true] at h
      split at h
      · exact absurd h (by simp)
      · have hout : out = aggregate_sample children := by
          have := congrArg (fun x => match x with
            | Except.ok (_, o, _) => o
            | Except.error _ => out) h
          simpa using this.symm
        have hr : r = true := by
          have := congrArg (fun x => match x with
            | Except.ok (_, _, b) => b
            | Except.error _ => r) h
          simpa using this.symm
        exact ⟨hout, by simp [hr, h1, h2]⟩
    · have hcf : (!rs.tree.is_step_complete &&
          dEq (aggregate_sample children).step_count
            (some ((rs.tree.step_count : ℚ)))) = false := by
        revert hc
        cases (!rs.tree.is_step_complete &&
          dEq (aggregate_sample children).step_count
            (some ((rs.tree.step_count : ℚ)))) <;> simp
      simp only [hcf, Bool.false_eq_true, if_false] at h
      have hout : out = aggregate_sample children := by
        have := congrArg (fun x => match x with
          | Except.ok (_, o, _) => o
          | Except.error _ => out) h
        simpa using this.symm
      have hr : r = false := by
        have := congrArg (fun x => match x with
          | Except.ok (_, _, b) => b
          | Except.error _ => r) h
        simpa using this.symm
      refine ⟨hout, ?_⟩
      subst hr
      simp only [Bool.false_eq_true, false_iff]
      intro hcontra
      rw [Bool.and_eq_false_iff] at hcf
      rcases hcf with h1 | h2
      · have h3 : rs.tree.is_step_complete = true := by simpa using h1
        rw [hcontra.1] at h3
        exact Bool.false_ne_true h3
      · rw [hcontra.2] at h2
        simp at h2

/-- A concrete mid-run root state: REDUCE_LIMIT step (step_count 2), step
not yet complete, stored policy in sync. -/
def rootW : RootState where
  tree := { policy := ⟨some 0, some 2, some 0, some 0⟩,
            step_count := 2, is_step_complete := false }
  num_node := 2
  root_cap := some 100
  min_setting := some 50
  max_setting := some 200

/-- Two child samples, both reporting step 2. -/
def childrenW : List Sample := [toSample (2, 1, 6, 4), toSample (2, 2, 4, 5)]

/-- The root state after `rootW` observes completion of step 2 on
`childrenW`: power_slack = min(10/2, 4) = 4 and policy step bumped to 3. -/
def rootW2 : RootState where
  tree := { policy := ⟨some 0, some 3, some 0, some 4⟩,
            step_count := 2, is_step_complete := true }
  num_node := 2
  root_cap := some 100
  min_setting := some 50
  max_setting := some 200

/-- Witness for C2 at `rootW` / `childrenW`. -/
theorem c2_tree_ascend_aggregates_witness :
    (⟨some 2, some 2, some 10, some 4⟩ : Sample) =
      aggregate_sample childrenW ∧
    (true = true ↔ (rootW.tree.is_step_complete = false ∧
      (aggregate_sample childrenW).step_count =
        some ((rootW.tree.step_count : ℚ)))) :=
  c2_tree_ascend_aggregates.2 rootW childrenW rootW2
    ⟨some 2, some 2, some 10, some 4⟩ true
    (by
      norm_num [RootRole.ascend, tree_ascend_eq, aggregate_sample, aggMin,
        aggMax, aggSum, childrenW, toSample, rootW, rootW2,
        Role.step_update_policy, ReduceLimitStep.update_policy,
        SendDownLimitStep.update_policy, MeasureRuntimeStep.update_policy,
        Role.step, M_STEP_SEND_DOWN_LIMIT, M_STEP_MEASURE_RUNTIME,
        M_STEP_REDUCE_LIMIT, M_NUM_STEP, dEq, dNe, dLt, dAdd, dDiv, Int.tmod])

/-- C1: when a root-role ascend observes that the subtree has completed
the current step, the stored policy's step_count is bumped to the role's
step_count + 1, and when that step is REDUCE_LIMIT the stored policy's
power_slack is set to min(sum_power_slack / num_node, min_power_headroom)
with num_node the product of the fan-in vector. -/
theorem c1_root_reduce_update
    (s : RootState) (children : List Sample) (t : RootState) (out : Sample)
    (fan_in : List ℤ) (hnum : s.num_node = calc_num_node fan_in)
    (h : RootRole.ascend s children = Except.ok (t, out, true)) :
    t.tree.policy.step_count = some ((s.tree.step_count : ℚ) + 1) ∧
    (Role.step s.tree.step_count = M_STEP_REDUCE_LIMIT →
      ∀ ssp hd : ℚ, out.sum_power_slack = some ssp →
        out.min_power_headroom = some hd →
        t.tree.policy.power_slack =
          some (min (ssp / ((calc_num_node fan_in : ℤ) : ℚ)) hd)) := by
  rw [RootRole.ascend, tree_ascend_eq] at h
  simp only [] at h
  by_cases hc : (!s.tree.is_step_complete &&
      dEq (aggregate_sample children).step_count
        (some ((s.tree.step_count : ℚ)))) = true
  · simp only [hc, if_true] at h
    split at h
    · exact absurd h (by simp)
    · have ht : { s with tree :=
          { { s.tree with is_step_complete := true } with policy :=
              { Role.step_update_policy
                  (Role.step ({ s.tree with is_step_complete := true }).step_count)
                  ({ s.tree with is_step_complete := true }).policy
                  (aggregate_sample children) s.num_node with
                  step_count :=
                    some ((({ s.tree with is_step_complete := true }).step_count : ℚ)
                      + 1) } } } = t := by
        have := congrArg (fun x => match x with
          | Except.ok (a, _, _) => a
          | Except.error _ => t) h
        simpa using this
      have hout : aggregate_sample children = out := by
        have := congrArg (fun x => match x with
          | Except.ok (_, o, _) => o
          | Except.error _ => out) h
        simpa using this
      constructor
      · rw [← ht]
      · intro hstep ssp hd hssp hhd
        rw [← hout] at hssp hhd
        rw [← ht]
        simp only [Role.step_update_policy, hstep]
        rw [if_neg (by decide : ¬ (M_STEP_REDUCE_LIMIT = M_STEP_SEND_DOWN_LIMIT)),
            if_neg (by decide : ¬ (M_STEP_REDUCE_LIMIT = M_STEP_MEASURE_RUNTIME))]
        simp only [ReduceLimitStep.update_policy, hssp, hhd,
          dDiv_some_some, dLt_some_some]
        rw [← hnum]
        by_cases hlt : ssp / ((s.num_node : ℤ) : ℚ) < hd
        · simp [hlt, min_eq_left hlt.le]
        · simp [hlt, min_eq_right (le_of_not_lt hlt)]
  · have hcf : (!s.tree.is_step_complete &&
        dEq (aggregate_sample children).step_count
          (some ((s.tree.step_count : ℚ)))) = false := by
      revert hc
      cases (!s.tree.is_step_complete &&
        dEq (aggregate_sample children).step_count
          (some ((s.tree.step_count : ℚ)))) <;> simp
    simp only [hcf, Bool.false_eq_true, if_false] at h
    have : False := by
      have := congrArg (fun x => match x with
        | Except.ok (_, _, b) => b
        | Except.error _ => true) h
      simpa using this
    exact absurd this (by simp)

/-- Witness for C1 at `rootW` / `childrenW` (fan-in [2], REDUCE step). -/
theorem c1_root_reduce_update_witness :
    rootW2.tree.policy.step_count = some ((rootW.tree.step_count : ℚ) + 1) ∧
    (Role.step rootW.tree.step_count = M_STEP_REDUCE_LIMIT →
      ∀ ssp hd : ℚ,
        (⟨some 2, some 2, some 10, some 4⟩ : Sample).sum_power_slack = some ssp →
        (⟨some 2, some 2, some 10, some 4⟩ : Sample).min_power_headroom = some hd →
        rootW2.tree.policy.power_slack =
          some (min (ssp / ((calc_num_node [2] : ℤ) : ℚ)) hd)) :=
  c1_root_reduce_update rootW childrenW rootW2
    ⟨some 2, some 2, some 10, some 4⟩ [2] (by decide)
    (by
      norm_num [RootRole.ascend, tree_ascend_eq, aggregate_sample, aggMin,
        aggMax, aggSum, childrenW, toSample, rootW, rootW2,
        Role.step_update_policy, ReduceLimitStep.update_policy,
        SendDownLimitStep.update_policy, MeasureRuntimeStep.update_policy,
        Role.step, M_STEP_SEND_DOWN_LIMIT, M_STEP_MEASURE_RUNTIME,
        M_STEP_REDUCE_LIMIT, M_NUM_STEP, dEq, dNe, dLt, dAdd, dDiv, Int.tmod])

/-- A root state mid-run just after a completing ascend: the stored
policy's step_count (1) is one ahead of the role's step_count (0). -/
def rootC4 : RootState where
  tree := { policy := ⟨some 0, some 1, some 2, some 0⟩,
            step_count := 0, is_step_complete := true }
  num_node := 2
  root_cap := some 100
  min_setting := some 50
  max_setting := some 200

/-- An incoming policy whose step_count equals the root's own step_count
and whose power cap equals the current root cap. -/
def polC4 : Policy := ⟨some 100, some 0, some 0, some 0⟩

/-- A previous child policy slot. -/
def slotC4 : Policy := ⟨some 0, some 0, some 0, some 0⟩

/-- Counterexample to C4: at `rootC4` the incoming policy `polC4` has
step_count equal to the role's own step_count and carries no new power
cap, yet descend advances the state and returns true, because the root's
branch conditions read the stored policy's step_count instead. -/
theorem c4_root_descend_counterexample :
    polC4.step_count = some ((rootC4.tree.step_count : ℚ)) ∧
    polC4.power_cap = rootC4.root_cap ∧
    RootRole.descend rootC4 polC4 [slotC4] =
      Except.ok
        ({ rootC4 with tree := { rootC4.tree with
             step_count := 1, is_step_complete := false } },
         [rootC4.tree.policy], true) ∧
    ({ rootC4 with tree := { rootC4.tree with
         step_count := 1, is_step_complete := false } } : RootState) ≠ rootC4 := by
  refine ⟨by norm_num [polC4, rootC4], by norm_num [polC4, rootC4], ?_, ?_⟩
  · norm_num [RootRole.descend, rootC4, polC4, slotC4, dEq, dNe, dLt,
      M_STEP_SEND_DOWN_LIMIT]
  · intro h
    have := congrArg (fun x : RootState => x.tree.step_count) h
    norm_num [rootC4] at this

/-- C4 (amended): an intermediate descend whose incoming step_count equals
the role's own step_count changes nothing, leaves the child slots alone
and returns false (hence repeating it changes nothing), regardless of the
power cap; at the root the same holds when the power cap is unchanged and
the *stored* policy's step_count equals the role's own; and whenever a
descend returns true every child slot receives one identical policy. -/
theorem c4_descend_amended :
    (∀ (s : TreeState) (inp : Policy) (out : List Policy),
      inp.step_count = some ((s.step_count : ℚ)) →
      TreeRole.descend s inp out = Except.ok (s, out, false)) ∧
    (∀ (s : RootState) (inp : Policy) (out : List Policy) (c : ℚ),
      s.root_cap = some c → inp.power_cap = some c →
      s.tree.policy.step_count = some ((s.tree.step_count : ℚ)) →
      RootRole.descend s inp out = Except.ok (s, out, false)) ∧
    (∀ (s : TreeState) (inp : Policy) (out newOut : List Policy)
       (t : TreeState),
      TreeRole.descend s inp out = Except.ok (t, newOut, true) →
      newOut = out.map (fun _ => inp)) ∧
    (∀ (s : RootState) (inp : Policy) (out newOut : List Policy)
       (t : RootState),
      RootRole.descend s inp out = Except.ok (t, newOut, true) →
      ∃ q : Policy, newOut = out.map (fun _ => q)) := by
  refine ⟨?_, ?_, ?_, ?_⟩
  · intro s inp out h
    simp [TreeRole.descend, h, dNe]
  · intro s inp out c hcap hinp hstored
    rw [RootRole.descend, hcap, hinp, hstored]
    simp [dNe, dEq]
  · intro s inp out newOut t h
    rw [TreeRole.descend] at h
    split at h
    · split at h
      · have := congrArg (fun x => match x with
          | Except.ok (_, o, _) => o
          | Except.error _ => newOut) h
        simpa using this.symm
      · split at h
        · have := congrArg (fun x => match x with
            | Except.ok (_, o, _) => o
            | Except.error _ => newOut) h
          simpa using this.symm
        · exact absurd h (by simp)
    · have : False := by
        have := congrArg (fun x => match x with
          | Except.ok (_, _, b) => b
          | Except.error _ => true) h
        simpa using this
      exact this.elim
  · intro s inp out newOut t h
    rw [RootRole.descend] at h
    split at h
    · split at h
      · exact absurd h (by simp)
      · refine ⟨{ power_cap := inp.power_cap,
                  step_count := some ((M_STEP_SEND_DOWN_LIMIT : ℤ) : ℚ),
                  max_epoch_runtime := some 0, power_slack := some 0 }, ?_⟩
        have := congrArg (fun x => match x with
          | Except.ok (_, o, _) => o
          | Except.error _ => newOut) h
        simpa using this.symm
    · split at h
      · refine ⟨s.tree.policy, ?_⟩
        have := congrArg (fun x => match x with
          | Except.ok (_, o, _) => o
          | Except.error _ => newOut) h
        simpa using this.symm
      · split at h
        · exact absurd h (by simp)
        · have : False := by
            have := congrArg (fun x => match x with
              | Except.ok (_, _, b) => b
              | Except.error _ => true) h
            simpa using this
          exact this.elim

/-- A policy with the current root cap and an arbitrary step count. -/
def polC4b : Policy := ⟨some 100, some 7, some 0, some 0⟩

/-- Witness for C4 (root no-change conjunct) at `rootW`, whose stored
policy step equals its own step. -/
theorem c4_descend_amended_witness :
    RootRole.descend rootW polC4b [slotC4] =
      Except.ok (rootW, [slotC4], false) :=
  c4_descend_amended.2.1 rootW polC4b [slotC4] 100 rfl rfl
    (by norm_num [rootW])

/-- With result = false the adjust loop never touches a balancer, emits no
event, and only (possibly) sets the out-of-bounds flag of each package. -/
lemma adjust_loop_false {B : Type} (ops : BalancerOps B)
    (l : List (B × PackageState)) :
    adjust_loop ops false l =
      (false,
       l.map (fun bp => (bp.1,
         if dLt (ops.power_limit bp.1) bp.2.actual_limit then
           { bp.2 with is_out_of_bounds := true } else bp.2)),
       []) := by
  induction l with
  | nil => rfl
  | cons bp rest ih =>
    obtain ⟨b, pkg⟩ := bp
    simp [adjust_loop, ih]

/-- The state produced by the per-package loop of adjust_platform. -/
def loop_pass {B : Type} (ops : BalancerOps B) (s : LeafState B) :
    LeafState B :=
  let marked := (s.balancers.zip s.packages).map (fun bp => (bp.1,
    if dLt (ops.power_limit bp.1) bp.2.actual_limit then
      { bp.2 with is_out_of_bounds := true } else bp.2))
  { s with balancers := marked.map Prod.fst, packages := marked.map Prod.snd }

/-- adjust_platform on a successful pre-phase: returns false, the
loop-marked state and the pre-phase events. -/
lemma leaf_adjust_ok {B : Type} (ops : BalancerOps B) (s0 : LeafState B)
    (inp : Policy) (s1 : LeafState B) (ev1 : List LeafEvent)
    (h : LeafRole.adjust_pre ops s0 inp = Except.ok (s1, ev1)) :
    LeafRole.adjust_platform ops s0 inp =
      Except.ok (false, loop_pass ops s1, ev1) := by
  rw [LeafRole.adjust_platform, h]
  simp [adjust_loop_false, loop_pass]

/-- adjust_platform on a failing pre-phase propagates the error. -/
lemma leaf_adjust_err {B : Type} (ops : BalancerOps B) (s0 : LeafState B)
    (inp : Policy) (e : Err)
    (h : LeafRole.adjust_pre ops s0 inp = Except.error e) :
    LeafRole.adjust_platform ops s0 inp = Except.error e := by
  rw [LeafRole.adjust_platform, h]

lemma map_fst_pair_map {B : Type} (f : B × PackageState → PackageState)
    (l : List (B × PackageState)) :
    (l.map (fun bp => (bp.1, f bp))).map Prod.fst = l.map Prod.fst := by
  induction l with
  | nil => rfl
  | cons bp rest ih => simp [ih]

lemma zip_map_fst {B C : Type} (bs : List B) (ps : List C)
    (h : bs.length ≤ ps.length) :
    (bs.zip ps).map Prod.fst = bs := by
  induction bs generalizing ps with
  | nil => rfl
  | cons b rest ih =>
    cases ps with
    | nil => simp at h
    | cons p prest =>
      simp only [List.zip_cons_cons, List.map_cons]
      rw [ih prest (by simpa using h)]

/-- The loop keeps the balancer list whenever it is no longer than the
package list. -/
lemma loop_pass_balancers {B : Type} (ops : BalancerOps B)
    (s : LeafState B) (h : s.balancers.length ≤ s.packages.length) :
    (loop_pass ops s).balancers = s.balancers := by
  simp only [loop_pass, map_fst_pair_map]
  exact zip_map_fst s.balancers s.packages h

lemma loop_pass_policy {B : Type} (ops : BalancerOps B) (s : LeafState B) :
    (loop_pass ops s).policy = s.policy := rfl

lemma loop_pass_step_count {B : Type} (ops : BalancerOps B)
    (s : LeafState B) : (loop_pass ops s).step_count = s.step_count := rfl

lemma loop_pass_complete {B : Type} (ops : BalancerOps B)
    (s : LeafState B) :
    (loop_pass ops s).is_step_complete = s.is_step_complete := rfl

lemma loop_pass_num_domain {B : Type} (ops : BalancerOps B)
    (s : LeafState B) : (loop_pass ops s).num_domain = s.num_domain := rfl

/-- The loop preserves every package field other than the out-of-bounds
flag. -/
lemma zip_mark_snd_map {B : Type} {β : Type} (ops : BalancerOps B)
    (g : PackageState → β)
    (hg : ∀ p, g { p with is_out_of_bounds := true } = g p) :
    ∀ (bs : List B) (ps : List PackageState), ps.length ≤ bs.length →
      (((bs.zip ps).map (fun bp => (bp.1,
          if dLt (ops.power_limit bp.1) bp.2.actual_limit then
            { bp.2 with is_out_of_bounds := true }
          else bp.2))).map Prod.snd).map g = ps.map g := by
  intro bs
  induction bs with
  | nil =>
    intro ps h
    cases ps with
    | nil => rfl
    | cons p prest => simp at h
  | cons b brest ih =>
    intro ps h
    cases ps with
    | nil => rfl
    | cons p prest =>
      simp only [List.zip_cons_cons, List.map_cons]
      rw [ih prest (by simpa using h)]
      by_cases hlt : dLt (ops.power_limit b) p.actual_limit = true
      · simp [hlt, hg]
      · simp only [Bool.not_eq_true] at hlt
        simp [hlt]

/-- The loop preserves every package field other than the out-of-bounds
flag. -/
lemma loop_pass_packages_field {B : Type} {β : Type} (ops : BalancerOps B)
    (s : LeafState B) (g : PackageState → β)
    (hg : ∀ p, g { p with is_out_of_bounds := true } = g p)
    (h : s.packages.length ≤ s.balancers.length) :
    (loop_pass ops s).packages.map g = s.packages.map g := by
  simp only [loop_pass]
  exact zip_mark_snd_map ops g hg s.balancers s.packages h

/-- The pre-phase of leaf adjust never emits a limit_adjusted event. -/
lemma adjust_pre_events {B : Type} (ops : BalancerOps B) (s : LeafState B)
    (inp : Policy) (s1 : LeafState B) (ev1 : List LeafEvent)
    (h : LeafRole.adjust_pre ops s inp = Except.ok (s1, ev1)) :
    LeafEvent.limit_adjusted ∉ ev1 := by
  rw [LeafRole.adjust_pre] at h
  split at h
  · have hev : ev1 = ({ s with policy := inp }).balancers.map
        (fun _ => LeafEvent.cap_set) := by
      have := congrArg (fun x => match x with
        | Except.ok (_, e) => e
        | Except.error _ => ev1) h
      simpa using this.symm
    rw [hev]
    simp [List.mem_map]
  · split at h
    · split at h
      · exact absurd h (by simp)
      · have hev : ev1 = (Role.enter_step ops
            { { s with policy := inp } with
                step_count := ({ s with policy := inp }).step_count + 1,
                is_step_complete := false } inp).2 := by
          have := congrArg (fun x => match x with
            | Except.ok (_, e) => e
            | Except.error _ => ev1) h
          simpa using this.symm
        rw [hev, Role.enter_step]
        split
        · simp [SendDownLimitStep.enter_step, List.mem_map]
        · split
          · simp
          · simp [ReduceLimitStep.enter_step, List.mem_map]
    · have hev : ev1 = [] := by
        have := congrArg (fun x => match x with
          | Except.ok (_, e) => e
          | Except.error _ => ev1) h
        simpa using this.symm
      simp [hev]

/-- C10: leaf adjust_platform always returns false on success, never
invokes power_limit_adjusted on any balancer, and consequently the agent
facade's do_write_batch flag is false after every leaf adjust call. -/
theorem c10_leaf_adjust_false :
    (∀ (B : Type) (ops : BalancerOps B) (s : LeafState B) (inp : Policy)
       (r : Bool × LeafState B × List LeafEvent),
      LeafRole.adjust_platform ops s inp = Except.ok r →
      r.1 = false ∧ LeafEvent.limit_adjusted ∉ r.2.2) ∧
    (∀ (B : Type) (ops : BalancerOps B) (a : AgentFlags) (s : LeafState B)
       (inp : Policy) (r : AgentFlags × LeafState B × List LeafEvent),
      PowerBalancerAgent.adjust_platform ops a s inp = Except.ok r →
      r.1.do_write_batch = false) := by
  have main : ∀ (B : Type) (ops : BalancerOps B) (s : LeafState B)
      (inp : Policy) (r : Bool × LeafState B × List LeafEvent),
      LeafRole.adjust_platform ops s inp = Except.ok r →
      r.1 = false ∧ LeafEvent.limit_adjusted ∉ r.2.2 := by
    intro B ops s inp r h
    rcases hpre : LeafRole.adjust_pre ops s inp with e | ⟨s1, ev1⟩
    · rw [leaf_adjust_err ops s inp e hpre] at h
      exact absurd h (by simp)
    · rw [leaf_adjust_ok ops s inp s1 ev1 hpre] at h
      have hr : r = (false, loop_pass ops s1, ev1) := by
        have := congrArg (fun x => match x with
          | Except.ok y => y
          | Except.error _ => r) h
        simpa using this.symm
      rw [hr]
      exact ⟨rfl, adjust_pre_events ops s inp s1 ev1 hpre⟩
  refine ⟨main, ?_⟩
  intro B ops a s inp r h
  rw [PowerBalancerAgent.adjust_platform] at h
  rcases hadj : LeafRole.adjust_platform ops s inp with e | ⟨res, s2, ev⟩
  · rw [hadj] at h
    exact absurd h (by simp)
  · rw [hadj] at h
    have hres : res = false :=
      (main B ops s inp (res, s2, ev) hadj).1
    have hr : r = ({ a with do_write_batch := res }, s2, ev) := by
      have := congrArg (fun x => match x with
        | Except.ok y => y
        | Except.error _ => r) h
      simpa using this.symm
    rw [hr, hres]

/-- A policy with zero cap and the fresh leaf's own step count. -/
def polC10 : Policy := ⟨some 0, some (-1), some 0, some 0⟩

/-- The fresh single-package leaf after storing `polC10`. -/
def sC10after : LeafState Unit where
  policy := polC10
  step_count := -1
  is_step_complete := true
  num_domain := 1
  balancers := [()]
  packages := [⟨0, some 0, none, some 0, some 0, false⟩]

/-- Witness for C10 on a fresh one-package leaf. -/
theorem c10_leaf_adjust_false_witness :
    ((false, sC10after, ([] : List LeafEvent)).1 = false ∧
     LeafEvent.limit_adjusted ∉
       (false, sC10after, ([] : List LeafEvent)).2.2) :=
  c10_leaf_adjust_false.1 Unit opsUnit (LeafRole.init [()] 1) polC10
    (false, sC10after, [])
    (by norm_num [LeafRole.adjust_platform, LeafRole.adjust_pre,
      LeafRole.init, adjust_loop, Role.enter_step, opsUnit, polC10,
      sC10after, dNe, dEq, dLt, dDiv, List.replicate])

/-- Branch of adjust_pre taken on a nonzero power cap: hard reset. -/
lemma adjust_pre_cap {B : Type} (ops : BalancerOps B) (s : LeafState B)
    (inp : Policy) (c : ℚ) (hcap : inp.power_cap = some c) (hc : c ≠ 0) :
    LeafRole.adjust_pre ops s inp =
      Except.ok ({ s with
                     policy := inp,
                     step_count := M_STEP_SEND_DOWN_LIMIT,
                     balancers := s.balancers.map
                       (fun b => ops.power_cap_set b
                         (some (c / ((s.num_domain : ℚ))))),
                     is_step_complete := true },
                 s.balancers.map (fun _ => LeafEvent.cap_set)) := by
  rw [LeafRole.adjust_pre, hcap]
  simp [hc]

/-- Branch of adjust_pre taken on a zero cap and an incoming step count
one ahead of the role's: advance and enter the new step.  Note that
m_is_step_complete is not consulted. -/
lemma adjust_pre_advance {B : Type} (ops : BalancerOps B) (s : LeafState B)
    (inp : Policy) (hcap : inp.power_cap = some 0)
    (hstep : inp.step_count = some ((s.step_count : ℚ) + 1)) :
    LeafRole.adjust_pre ops s inp =
      Except.ok (Role.enter_step ops
        { s with policy := inp, step_count := s.step_count + 1,
                 is_step_complete := false } inp) := by
  rw [LeafRole.adjust_pre, hcap, hstep]
  have h1 : ((s.step_count : ℚ) + 1 = (s.step_count : ℚ)) = False := by
    simp only [eq_iff_iff, iff_false]
    intro h
    linarith
  have h2 : (((s.step_count + 1 : ℤ) : ℚ) = (s.step_count : ℚ) + 1) := by
    push_cast
    ring
  simp [h1, h2]

/-- Branch of adjust_pre taken on a zero cap and an incoming step count
equal to the role's: no state change beyond storing the policy. -/
lemma adjust_pre_noop {B : Type} (ops : BalancerOps B) (s : LeafState B)
    (inp : Policy) (hcap : inp.power_cap = some 0)
    (hstep : inp.step_count = some ((s.step_count : ℚ))) :
    LeafRole.adjust_pre ops s inp =
      Except.ok ({ s with policy := inp }, []) := by
  rw [LeafRole.adjust_pre, hcap, hstep]
  simp

/-- Branch of adjust_pre taken on a zero cap and an incoming step count
that is neither the role's nor one ahead: desync error. -/
lemma adjust_pre_desync {B : Type} (ops : BalancerOps B) (s : LeafState B)
    (inp : Policy) (q : ℚ) (hcap : inp.power_cap = some 0)
    (hstep : inp.step_count = some q) (h1 : q ≠ ((s.step_count : ℚ)))
    (h2 : q ≠ ((s.step_count : ℚ)) + 1) :
    LeafRole.adjust_pre ops s inp = Except.error Err.desync := by
  rw [LeafRole.adjust_pre, hcap, hstep]
  have h3 : (((s.step_count + 1 : ℤ) : ℚ) = (s.step_count : ℚ) + 1) := by
    push_cast
    ring
  have h4 : ¬(((s.step_count : ℚ)) + 1 = q) := fun h => h2 h.symm
  simp [h1, h3, h4]

/-- Entering a step never changes the step counter. -/
lemma enter_step_step_count {B : Type} (ops : BalancerOps B)
    (s : LeafState B) (inp : Policy) :
    (Role.enter_step ops s inp).1.step_count = s.step_count := by
  rw [Role.enter_step]
  split
  · rfl
  · split
    · rfl
    · rfl

/-- A single-package leaf at step 1 with the step NOT complete. -/
def sC5 : LeafState Unit where
  policy := ⟨some 0, some 1, some 0, some 0⟩
  step_count := 1
  is_step_complete := false
  num_domain := 1
  balancers := [()]
  packages := [⟨0, some 0, none, some 0, some 0, false⟩]

/-- A zero-cap policy one step ahead of `sC5`. -/
def polC5 : Policy := ⟨some 0, some 2, some 5, some 0⟩

/-- The leaf after `sC5` processes `polC5`: advanced into REDUCE_LIMIT. -/
def sC5b : LeafState Unit where
  policy := polC5
  step_count := 2
  is_step_complete := false
  num_domain := 1
  balancers := [()]
  packages := [⟨0, some 0, none, some 0, some 0, false⟩]

/-- Counterexample to C5: the leaf `sC5` has NOT marked its current step
complete, yet adjust_platform on the zero-cap policy `polC5` (step count
own + 1) advances the step counter by one instead of failing; the leaf
never consults m_is_step_complete. -/
theorem c5_leaf_advance_counterexample :
    sC5.is_step_complete = false ∧
    LeafRole.adjust_platform opsUnit sC5 polC5 =
      Except.ok (false, sC5b, [LeafEvent.target_set]) ∧
    sC5b.step_count = sC5.step_count + 1 := by
  refine ⟨rfl, ?_, by decide⟩
  norm_num [LeafRole.adjust_platform, LeafRole.adjust_pre, Role.enter_step,
    ReduceLimitStep.enter_step, SendDownLimitStep.enter_step, adjust_loop,
    Role.step, Int.tmod, M_STEP_SEND_DOWN_LIMIT, M_STEP_MEASURE_RUNTIME,
    M_STEP_REDUCE_LIMIT, M_NUM_STEP, opsUnit, sC5, polC5, sC5b, dNe, dEq,
    dLt, dDiv, dAdd]

/-- C5 (amended): the step-transition rules are role-specific.  A leaf
resets on any nonzero power cap and otherwise advances by one exactly
when the incoming step count is own + 1, regardless of step completeness,
failing with desync on any other differing value and ignoring a matching
one.  An intermediate role advances (or resets on an incoming step count
of 0) only when its step is complete, silently ignores any policy while
its step is incomplete, and fails with desync only when complete and the
incoming step count is none of own, 0, own + 1.  The root ignores the
incoming step count entirely: with an unchanged cap it advances exactly
when its stored policy's step count is own + 1 and fails with desync when
the stored step count is neither own nor own + 1. -/
theorem c5_step_transition_amended :
    (∀ (B : Type) (ops : BalancerOps B) (s : LeafState B) (inp : Policy)
       (c : ℚ), inp.power_cap = some c → c ≠ 0 →
      ∃ r : Bool × LeafState B × List LeafEvent,
        LeafRole.adjust_platform ops s inp = Except.ok r ∧
        r.2.1.step_count = M_STEP_SEND_DOWN_LIMIT ∧
        r.2.1.is_step_complete = true) ∧
    (∀ (B : Type) (ops : BalancerOps B) (s : LeafState B) (inp : Policy),
      inp.power_cap = some 0 →
      inp.step_count = some ((s.step_count : ℚ) + 1) →
      ∃ r : Bool × LeafState B × List LeafEvent,
        LeafRole.adjust_platform ops s inp = Except.ok r ∧
        r.2.1.step_count = s.step_count + 1) ∧
    (∀ (B : Type) (ops : BalancerOps B) (s : LeafState B) (inp : Policy)
       (q : ℚ), inp.power_cap = some 0 → inp.step_count = some q →
      q ≠ ((s.step_count : ℚ)) → q ≠ ((s.step_count : ℚ)) + 1 →
      LeafRole.adjust_platform ops s inp = Except.error Err.desync) ∧
    (∀ (B : Type) (ops : BalancerOps B) (s : LeafState B) (inp : Policy),
      inp.power_cap = some 0 →
      inp.step_count = some ((s.step_count : ℚ)) →
      ∃ r : Bool × LeafState B × List LeafEvent,
        LeafRole.adjust_platform ops s inp = Except.ok r ∧
        r.2.1.step_count = s.step_count) ∧
    (∀ (s : TreeState) (inp : Policy) (out : List Policy),
      s.is_step_complete = true →
      inp.step_count = some ((s.step_count : ℚ) + 1) →
      TreeRole.descend s inp out =
        Except.ok ({ policy := inp, step_count := s.step_count + 1,
                     is_step_complete := false },
                   out.map (fun _ => inp), true)) ∧
    (∀ (s : TreeState) (inp : Policy) (out : List Policy),
      s.is_step_complete = false →
      TreeRole.descend s inp out = Except.ok (s, out, false)) ∧
    (∀ (s : TreeState) (inp : Policy) (out : List Policy) (q : ℚ),
      s.is_step_complete = true → inp.step_count = some q →
      q ≠ ((s.step_count : ℚ)) → q ≠ 0 → q ≠ ((s.step_count : ℚ)) + 1 →
      TreeRole.descend s inp out = Except.error Err.desync) ∧
    (∀ (s : RootState) (inp : Policy) (out : List Policy) (c : ℚ),
      s.root_cap = some c → inp.power_cap = some c →
      s.tree.policy.step_count = some ((s.tree.step_count : ℚ) + 1) →
      RootRole.descend s inp out =
        Except.ok ({ s with tree := { s.tree with
                       step_count := s.tree.step_count + 1,
                       is_step_complete := false } },
                   out.map (fun _ => s.tree.policy), true)) ∧
    (∀ (s : RootState) (inp : Policy) (out : List Policy) (c q : ℚ),
      s.root_cap = some c → inp.power_cap = some c →
      s.tree.policy.step_count = some q →
      q ≠ ((s.tree.step_count : ℚ)) → q ≠ ((s.tree.step_count : ℚ)) + 1 →
      RootRole.descend s inp out = Except.error Err.desync) := by
  refine ⟨?_, ?_, ?_, ?_, ?_, ?_, ?_, ?_, ?_⟩
  · intro B ops s inp c hcap hc
    refine ⟨_, leaf_adjust_ok ops s inp _ _ (adjust_pre_cap ops s inp c hcap hc), ?_, ?_⟩
    · exact loop_pass_step_count ops _
    · exact loop_pass_complete ops _
  · intro B ops s inp hcap hstep
    have hpre := adjust_pre_advance ops s inp hcap hstep
    rcases hE : Role.enter_step ops
        { s with policy := inp, step_count := s.step_count + 1,
                 is_step_complete := false } inp with ⟨s1, ev1⟩
    rw [hE] at hpre
    refine ⟨_, leaf_adjust_ok ops s inp s1 ev1 hpre, ?_⟩
    rw [loop_pass_step_count]
    have h5 := enter_step_step_count ops
      { s with policy := inp, step_count := s.step_count + 1,
               is_step_complete := false } inp
    rw [hE] at h5
    simpa using h5
  · intro B ops s inp q hcap hstep h1 h2
    exact leaf_adjust_err ops s inp Err.desync
      (adjust_pre_desync ops s inp q hcap hstep h1 h2)
  · intro B ops s inp hcap hstep
    exact ⟨_, leaf_adjust_ok ops s inp _ _ (adjust_pre_noop ops s inp hcap hstep),
      loop_pass_step_count ops _⟩
  · intro s inp out hcomp hstep
    rw [TreeRole.descend, hcomp, hstep]
    have hne : (((s.step_count : ℚ)) + 1 = ((s.step_count : ℚ))) = False := by
      simp only [eq_iff_iff, iff_false]
      intro h
      linarith
    by_cases hz : ((s.step_count : ℚ)) + 1 = ((M_STEP_SEND_DOWN_LIMIT : ℚ))
    · have hz2 : s.step_count + 1 = M_STEP_SEND_DOWN_LIMIT := by
        have : ((s.step_count + 1 : ℤ) : ℚ) = ((M_STEP_SEND_DOWN_LIMIT : ℤ) : ℚ) := by
          push_cast
          push_cast at hz
          linarith
        exact_mod_cast this
      rw [hz2]
      simp only [hne, hz]
      simp
      intro h
      rw [← h] at hz2
      omega
    · simp [hne, hz]
  · intro s inp out hcomp
    rw [TreeRole.descend, hcomp]
    simp
  · intro s inp out q hcomp hstep h1 h2 h3
    rw [TreeRole.descend, hcomp, hstep]
    have h0 : (M_STEP_SEND_DOWN_LIMIT : ℚ) = 0 := by norm_num [M_STEP_SEND_DOWN_LIMIT]
    have h4 : ¬(q = ((M_STEP_SEND_DOWN_LIMIT : ℚ))) := by
      rw [h0]
      exact h2
    simp [h1, h3, h4]
  · intro s inp out c hcap hinp hstored
    rw [RootRole.descend, hcap, hinp, hstored]
    have hne : ¬(((s.tree.step_count : ℚ)) + 1 = ((s.tree.step_count : ℚ))) := by
      intro h
      linarith
    simp [hne]
  · intro s inp out c q hcap hinp hstored h1 h2
    rw [RootRole.descend, hcap, hinp, hstored]
    have h3 : ¬(((s.tree.step_count : ℚ)) + 1 = q) := fun h => h2 h.symm
    have h4 : ¬(((s.tree.step_count : ℚ)) = q) := fun h => h1 h.symm
    simp [h3, h4]

/-- A zero-cap policy whose step count matches neither sC5's nor its
successor. -/
def polC5bad : Policy := ⟨some 0, some 7, some 0, some 0⟩

/-- Witness for C5 (leaf desync conjunct) at `sC5` / `polC5bad`. -/
theorem c5_step_transition_amended_witness :
    LeafRole.adjust_platform opsUnit sC5 polC5bad = Except.error Err.desync :=
  c5_step_transition_amended.2.2.1 Unit opsUnit sC5 polC5bad 7 rfl rfl
    (by norm_num [sC5]) (by norm_num [sC5])

/-- A fresh job-level power cap of 200 W. -/
def polCap : Policy := ⟨some 200, some 0, some 0, some 0⟩

/-- A used single-package leaf carrying nonzero measurement bookkeeping
(runtime 9, power_slack 7) in m_package. -/
def sC6 : LeafState Unit where
  policy := ⟨some 0, some 2, some 0, some 0⟩
  step_count := 2
  is_step_complete := true
  num_domain := 1
  balancers := [()]
  packages := [⟨5, some 9, some 2, some 7, some 3, true⟩]

/-- Counterexample to C6: after processing the nonzero cap `polCap`, the
used leaf `sC6` still reports per-package power_slack 7 while a freshly
initialized leaf seeded with the same cap reports 0 - the m_package
bookkeeping is not reset, so the states are distinguishable. -/
theorem c6_reset_counterexample :
    (LeafRole.adjust_platform opsUnit sC6 polCap).toOption.map
        (fun r => r.2.1.packages.map PackageState.power_slack) =
      some [some 7] ∧
    (LeafRole.adjust_platform opsUnit (LeafRole.init [()] 1) polCap).toOption.map
        (fun r => r.2.1.packages.map PackageState.power_slack) =
      some [some 0] ∧
    (some (7 : ℚ)) ≠ (some (0 : ℚ)) := by
  refine ⟨?_, ?_, by norm_num⟩
  · norm_num [LeafRole.adjust_platform, LeafRole.adjust_pre, adjust_loop,
      opsUnit, sC6, polCap, dNe, dEq, dLt, dDiv, Except.toOption]
  · norm_num [LeafRole.adjust_platform, LeafRole.adjust_pre, adjust_loop,
      LeafRole.init, List.replicate, opsUnit, polCap, dNe, dEq, dLt, dDiv,
      Except.toOption]

/-- C6 (amended): a nonzero power cap resets the step machinery - at the
leaf the step counter goes to SEND_DOWN_LIMIT, the step is marked
complete, the policy is stored and every balancer cap is seeded with
power_cap / num_domain; at the root (on a changed, in-range cap) the
stored policy becomes (cap, SEND_DOWN_LIMIT, 0, 0) and the root cap is
updated - but the per-package measurement bookkeeping (leaf) and the
step-complete flag (root) are carried over from the old state, so the
result is not identical to a freshly initialized agent. -/
theorem c6_reset_amended :
    (∀ (B : Type) (ops : BalancerOps B) (s : LeafState B) (inp : Policy)
       (c : ℚ), inp.power_cap = some c → c ≠ 0 →
      s.balancers.length = s.packages.length →
      ∃ r : Bool × LeafState B × List LeafEvent,
        LeafRole.adjust_platform ops s inp = Except.ok r ∧
        r.1 = false ∧
        r.2.1.step_count = M_STEP_SEND_DOWN_LIMIT ∧
        r.2.1.is_step_complete = true ∧
        r.2.1.policy = inp ∧
        r.2.1.balancers = s.balancers.map
          (fun b => ops.power_cap_set b (some (c / ((s.num_domain : ℚ))))) ∧
        r.2.1.packages.map PackageState.runtime =
          s.packages.map PackageState.runtime ∧
        r.2.1.packages.map PackageState.power_slack =
          s.packages.map PackageState.power_slack) ∧
    (∀ (s : RootState) (inp : Policy) (out : List Policy) (c : ℚ),
      inp.power_cap = some c → dNe inp.power_cap s.root_cap = true →
      dLt s.max_setting inp.power_cap = false →
      dLt inp.power_cap s.min_setting = false →
      RootRole.descend s inp out =
        Except.ok
          ({ s with
               tree := { policy := ⟨some c,
                           some (((M_STEP_SEND_DOWN_LIMIT : ℤ) : ℚ)),
                           some 0, some 0⟩,
                         step_count := M_STEP_SEND_DOWN_LIMIT,
                         is_step_complete := s.tree.is_step_complete },
               root_cap := some c },
           out.map (fun _ => (⟨some c,
             some (((M_STEP_SEND_DOWN_LIMIT : ℤ) : ℚ)),
             some 0, some 0⟩ : Policy)), true)) := by
  constructor
  · intro B ops s inp c hcap hc hlen
    have hpre := adjust_pre_cap ops s inp c hcap hc
    refine ⟨_, leaf_adjust_ok ops s inp _ _ hpre, rfl, ?_, ?_, ?_, ?_, ?_, ?_⟩
    · exact loop_pass_step_count ops _
    · exact loop_pass_complete ops _
    · exact loop_pass_policy ops _
    · rw [loop_pass_balancers]
      simpa using hlen.le
    · rw [loop_pass_packages_field]
      · intro p
        rfl
      · simpa using hlen.ge
    · rw [loop_pass_packages_field]
      · intro p
        rfl
      · simpa using hlen.ge
  · intro s inp out c hcap hne hmax hmin
    rw [RootRole.descend, hne, hmax, hmin, hcap]
    simp

/-- Witness for C6 (root conjunct) at `rootW` with new cap 200. -/
theorem c6_reset_amended_witness :
    RootRole.descend rootW polCap [slotC4] =
      Except.ok
        ({ rootW with
             tree := { policy := ⟨some 200,
                         some (((M_STEP_SEND_DOWN_LIMIT : ℤ) : ℚ)),
                         some 0, some 0⟩,
                       step_count := M_STEP_SEND_DOWN_LIMIT,
                       is_step_complete := rootW.tree.is_step_complete },
             root_cap := some 200 },
         [slotC4].map (fun _ => (⟨some 200,
           some (((M_STEP_SEND_DOWN_LIMIT : ℤ) : ℚ)),
           some 0, some 0⟩ : Policy)), true) :=
  c6_reset_amended.2 rootW polCap [slotC4] 200 rfl
    (by norm_num [rootW, polCap, dNe, dEq])
    (by norm_num [rootW, polCap, dLt])
    (by norm_num [rootW, polCap, dLt])

/-- A leaf with one PB balancer whose cap (100) exceeds its enforced
limit (80), about to advance into SEND_DOWN_LIMIT. -/
def sC9 : LeafState PB where
  policy := ⟨some 0, some 2, some 0, some 0⟩
  step_count := 2
  is_step_complete := true
  num_domain := 1
  balancers := [⟨some 100, some 80⟩]
  packages := [⟨0, some 0, none, some 0, some 0, false⟩]

/-- A zero-cap policy carrying power_slack 10 that advances `sC9` into
step 3 = SEND_DOWN_LIMIT. -/
def polC9 : Policy := ⟨some 0, some 3, some 0, some 10⟩

/-- Counterexample to C9: entering SEND_DOWN_LIMIT sets the balancer cap
to power_limit + slack/num_packages = 80 + 10 = 90, not to
cap + slack/num_packages = 100 + 10 = 110 as the claim states. -/
theorem c9_send_down_counterexample :
    (LeafRole.adjust_platform PB.ops sC9 polC9).toOption.map
        (fun r => r.2.1.balancers.map PB.cap) = some [some 90] ∧
    (90 : ℚ) ≠ 100 + 10 / 1 := by
  constructor
  · norm_num [LeafRole.adjust_platform, LeafRole.adjust_pre, adjust_loop,
      Role.enter_step, SendDownLimitStep.enter_step, Role.step, Int.tmod,
      M_STEP_SEND_DOWN_LIMIT, M_NUM_STEP, PB.ops, sC9, polC9, dNe, dEq,
      dLt, dDiv, dAdd, Except.toOption]
  · norm_num

/-- C9 (amended): on entering SEND_DOWN_LIMIT via a zero-cap policy whose
step count advances the leaf to a step that is 0 mod 3, each balancer's
cap is set to its current power_limit plus policy.power_slack divided by
the number of packages, and the step is immediately marked complete. -/
theorem c9_send_down_amended (B : Type) (ops : BalancerOps B)
    (s : LeafState B) (inp : Policy)
    (hcap : inp.power_cap = some 0)
    (hstep : inp.step_count = some ((s.step_count : ℚ) + 1))
    (hsend : Role.step (s.step_count + 1) = M_STEP_SEND_DOWN_LIMIT)
    (hlen : s.balancers.length = s.packages.length) :
    (LeafRole.adjust_platform ops s inp).toOption.map
        (fun r => (r.2.1.balancers, r.2.1.is_step_complete)) =
      some (s.balancers.map (fun b => ops.power_cap_set b
              (dAdd (ops.power_limit b)
                (dDiv inp.power_slack (some ((s.num_domain : ℚ)))))),
            true) := by
  have hpre := adjust_pre_advance ops s inp hcap hstep
  rw [Role.enter_step] at hpre
  rw [if_pos (by simpa using hsend)] at hpre
  rw [SendDownLimitStep.enter_step] at hpre
  rw [leaf_adjust_ok ops s inp _ _ hpre]
  simp only [Except.toOption, Option.map_some', Option.some.injEq, Prod.mk.injEq]
  refine ⟨?_, ?_⟩
  · rw [loop_pass_balancers]
    simpa using hlen.le
  · rw [loop_pass_complete]

/-- Witness for C9 at `sC9` / `polC9`. -/
theorem c9_send_down_amended_witness :
    (LeafRole.adjust_platform PB.ops sC9 polC9).toOption.map
        (fun r => (r.2.1.balancers, r.2.1.is_step_complete)) =
      some (sC9.balancers.map (fun b => PB.ops.power_cap_set b
              (dAdd (PB.ops.power_limit b)
                (dDiv polC9.power_slack (some ((sC9.num_domain : ℚ)))))),
            true) :=
  c9_send_down_amended PB PB.ops sC9 polC9 rfl
    (by norm_num [sC9, polC9]) (by decide) rfl

/-- The runtime fold of sample_platform (accumulator kept on ties)
computes the rational maximum over finite values. -/
lemma foldl_dmax2_map_some (a : ℚ) (l : List ℚ) :
    (l.map some).foldl (fun r x => if dLt x r then r else x) (some a) =
      some (l.foldl max a) := by
  induction l generalizing a with
  | nil => rfl
  | cons q qs ih =>
    simp only [List.map_cons, List.foldl_cons, dLt_some_some]
    rw [show (if decide (q < a) = true then some a else some q) =
          some (max a q) by
        by_cases h : q < a
        · simp [h, max_eq_left h.le]
        · simp [h, max_eq_right (le_of_not_lt h)]]
    exact ih (max a q)

/-- A two-package leaf whose packages hold power_headroom 1 and 2. -/
def sC3 : LeafState Unit where
  policy := ⟨some 0, some 0, some 0, some 0⟩
  step_count := 0
  is_step_complete := true
  num_domain := 2
  balancers := [(), ()]
  packages := [⟨0, some 0, none, some 0, some 1, false⟩,
               ⟨0, some 0, none, some 0, some 2, false⟩]

/-- Counterexample to C3: at the SEND_DOWN_LIMIT step (whose sample hook
is a no-op) the leaf fills the min_power_headroom slot with the SUM of
the per-package headrooms (1 + 2 = 3), not their minimum (1). -/
theorem c3_sample_headroom_counterexample :
    sC3.packages.map PackageState.power_headroom = [some 1, some 2] ∧
    (LeafRole.sample_platform SendDownLimitStep.sample_hook
        sC3).1.min_power_headroom = some 3 ∧
    some (3 : ℚ) ≠ some (1 : ℚ) := by
  refine ⟨rfl, ?_, by norm_num⟩
  norm_num [LeafRole.sample_platform, LeafRole.sample_fill,
    SendDownLimitStep.sample_hook, sC3, dLt, dAdd]

/-- C3 (amended): after running the current step's sample hook, the leaf
fills the out sample with its step_count, the fold of max over the
per-package runtimes starting from 0, the TOTAL per-package power_slack,
and the TOTAL (summed, not minimum) per-package power_headroom, and
returns true exactly when the step is complete. -/
theorem c3_leaf_sample_fill_amended (B : Type)
    (hook : LeafState B → LeafState B) (s : LeafState B)
    (rs ss hs : List ℚ)
    (hr : (hook s).packages.map PackageState.runtime = rs.map some)
    (hsl : (hook s).packages.map PackageState.power_slack = ss.map some)
    (hh : (hook s).packages.map PackageState.power_headroom = hs.map some) :
    LeafRole.sample_platform hook s =
      (⟨some (((hook s).step_count : ℚ)), some (rs.foldl max 0),
        some (ss.foldl (· + ·) 0), some (hs.foldl (· + ·) 0)⟩,
       (hook s).is_step_complete) := by
  rw [LeafRole.sample_platform, LeafRole.sample_fill]
  have h1 : (hook s).packages.foldl
      (fun r pkg => if dLt pkg.runtime r then r else pkg.runtime) (some 0) =
      some (rs.foldl max 0) := by
    rw [show (fun (r : D) (pkg : PackageState) =>
          if dLt pkg.runtime r then r else pkg.runtime) =
        (fun (r : D) (pkg : PackageState) =>
          (fun (x y : D) => if dLt y x then x else y) r pkg.runtime)
        from rfl]
    rw [← List.foldl_map PackageState.runtime
      (fun (x y : D) => if dLt y x then x else y)]
    rw [hr]
    exact foldl_dmax2_map_some 0 rs
  have h2 : (hook s).packages.foldl
      (fun a pkg => dAdd a pkg.power_slack) (some 0) =
      some (ss.foldl (· + ·) 0) := by
    rw [show (fun (a : D) (pkg : PackageState) => dAdd a pkg.power_slack) =
        (fun (a : D) (pkg : PackageState) => dAdd a (pkg.power_slack))
        from rfl]
    rw [← List.foldl_map PackageState.power_slack dAdd]
    rw [hsl]
    exact foldl_dAdd_map_some 0 ss
  have h3 : (hook s).packages.foldl
      (fun a pkg => dAdd a pkg.power_headroom) (some 0) =
      some (hs.foldl (· + ·) 0) := by
    rw [← List.foldl_map PackageState.power_headroom dAdd]
    rw [hh]
    exact foldl_dAdd_map_some 0 hs
  rw [h1, h2, h3]

/-- Witness for C3 at `sC3` (SEND_DOWN_LIMIT hook). -/
theorem c3_leaf_sample_fill_amended_witness :
    LeafRole.sample_platform SendDownLimitStep.sample_hook sC3 =
      (⟨some (((SendDownLimitStep.sample_hook sC3).step_count : ℚ)),
        some (([0, 0] : List ℚ).foldl max 0),
        some (([0, 0] : List ℚ).foldl (· + ·) 0),
        some (([1, 2] : List ℚ).foldl (· + ·) 0)⟩,
       (SendDownLimitStep.sample_hook sC3).is_step_complete) :=
  c3_leaf_sample_fill_amended Unit SendDownLimitStep.sample_hook sC3
    [0, 0] [0, 0] [1, 2] rfl rfl rfl

/-- Counterexample to C8: in a build without GEOPM_DEBUG the base-class
descend and ascend of a leaf agent silently return false instead of
failing with a WrongRole error. -/
theorem c8_wrong_role_counterexample :
    Role.base_descend false = Except.ok false ∧
    Role.base_ascend false = Except.ok false :=
  ⟨rfl, rfl⟩

/-- C8 (amended): calling descend or ascend on a leaf agent hits the
Role base-class methods, which raise the wrong-role logic error only in
GEOPM_DEBUG builds; without GEOPM_DEBUG they silently return false and
have no effect. -/
theorem c8_wrong_role_amended :
    Role.base_descend true = Except.error Err.wrong_role ∧
    Role.base_ascend true = Except.error Err.wrong_role ∧
    Role.base_descend false = Except.ok false ∧
    Role.base_ascend false = Except.ok false :=
  ⟨rfl, rfl, rfl, rfl⟩

/-- The clamp of validate_policy equals max minp (min maxp x) whenever
minp ≤ maxp. -/
lemma clamp_eq (minp maxp x : ℚ) (h : minp ≤ maxp) :
    (if dLt (some x) (some minp) then (some minp : D)
     else if dLt (some maxp) (some x) then some maxp
     else some x) = some (max minp (min maxp x)) := by
  simp only [dLt_some_some]
  split_ifs with h1 h2
  · rw [decide_eq_true_eq] at h1
    rw [min_eq_right (le_of_lt (lt_of_lt_of_le h1 h)),
        max_eq_left (le_of_lt h1)]
  · rw [decide_eq_true_eq] at h2
    rw [min_eq_left (le_of_lt h2), max_eq_right h]
  · rw [decide_eq_true_eq, not_lt] at h1 h2
    rw [min_eq_right h2, max_eq_right h1]

/-- The NaN-replacement stage of validate_policy: replacing each NaN
field by its default first does not change the result. -/
lemma validate_stage (tdp : ℚ) (minp maxp : D) (cap sc rt sl : D) :
    PowerBalancerAgent.validate_policy (some tdp) minp maxp
        ⟨cap, sc, rt, sl⟩ =
      PowerBalancerAgent.validate_policy (some tdp) minp maxp
        ⟨some (cap.getD tdp), some (sc.getD 0), some (rt.getD 0),
         some (sl.getD 0)⟩ := by
  cases cap <;> cases sc <;> cases rt <;> cases sl <;> rfl

/-- validate_policy on an all-finite policy: the cap is clamped when
nonzero and the call errors exactly when the resulting policy is all
zeros. -/
lemma validate_policy_allsome (tdp minp maxp cap0 sc rt sl : ℚ)
    (h : minp ≤ maxp) :
    PowerBalancerAgent.validate_policy (some tdp) (some minp) (some maxp)
        ⟨some cap0, some sc, some rt, some sl⟩ =
      (if (if cap0 = 0 then (0 : ℚ) else max minp (min maxp cap0)) = 0 ∧
          sc = 0 ∧ rt = 0 ∧ sl = 0
       then Except.error Err.invalid_policy
       else Except.ok ⟨some (if cap0 = 0 then (0 : ℚ)
                             else max minp (min maxp cap0)),
                       some sc, some rt, some sl⟩) := by
  rw [PowerBalancerAgent.validate_policy]
  by_cases hz : cap0 = 0
  · simp [hz, and_assoc]
  · simp only [isnan_some, Bool.false_eq_true, if_false, dNe_some_some,
      hz, decide_False, Bool.not_false, if_true]
    rw [clamp_eq minp maxp cap0 h]
    simp [hz, and_assoc]

/-- C7: validate_policy replaces every NaN field by its default (power
cap becomes the platform TDP, the other fields 0), clamps a nonzero
power cap into [min_setting, max_setting] (the board-level platform
power bounds), and raises the invalid-policy error exactly when the
resulting policy is all zeros. -/
theorem c7_validate_policy_spec (tdp minp maxp : ℚ) (h : minp ≤ maxp)
    (p : Policy) :
    PowerBalancerAgent.validate_policy (some tdp) (some minp) (some maxp)
        p =
      (if (if p.power_cap.getD tdp = 0 then (0 : ℚ)
           else max minp (min maxp (p.power_cap.getD tdp))) = 0 ∧
          p.step_count.getD 0 = 0 ∧ p.max_epoch_runtime.getD 0 = 0 ∧
          p.power_slack.getD 0 = 0
       then Except.error Err.invalid_policy
       else Except.ok
         ⟨some (if p.power_cap.getD tdp = 0 then (0 : ℚ)
                else max minp (min maxp (p.power_cap.getD tdp))),
          some (p.step_count.getD 0),
          some (p.max_epoch_runtime.getD 0),
          some (p.power_slack.getD 0)⟩) := by
  rcases p with ⟨cap, sc, rt, sl⟩
  rw [validate_stage]
  exact validate_policy_allsome tdp minp maxp (cap.getD tdp) (sc.getD 0)
    (rt.getD 0) (sl.getD 0) h

/-- A policy with NaN power cap and runtime, used as the C7 witness. -/
def polC7 : Policy := ⟨none, some 1, none, some 0⟩

/-- Witness for C7 with TDP 280 and bounds [50, 200]: the NaN cap becomes
280 and is clamped to 200; the policy is accepted. -/
theorem c7_validate_policy_spec_witness :
    PowerBalancerAgent.validate_policy (some 280) (some 50) (some 200)
        polC7 =
      (if (if polC7.power_cap.getD 280 = 0 then (0 : ℚ)
           else max 50 (min 200 (polC7.power_cap.getD 280))) = 0 ∧
          polC7.step_count.getD 0 = 0 ∧
          polC7.max_epoch_runtime.getD 0 = 0 ∧
          polC7.power_slack.getD 0 = 0
       then Except.error Err.invalid_policy
       else Except.ok
         ⟨some (if polC7.power_cap.getD 280 = 0 then (0 : ℚ)
                else max 50 (min 200 (polC7.power_cap.getD 280))),
          some (polC7.step_count.getD 0),
          some (polC7.max_epoch_runtime.getD 0),
          some (polC7.power_slack.getD 0)⟩) :=
  c7_validate_policy_spec 280 50 200 (by norm_num) polC7
